import Mathlib

/-!
Verification of the tool-augmented conversation loop of the pubmed-mcp
repository: a shallow embedding of `run_jiminy_agent` / `call_jiminy_tool`
(src/jiminy.py, Local dispatch mode) and `run_pubmed_agent` (src/main.py,
Delegated dispatch mode), together with theorems settling the specified
properties of the loop.
-/

namespace PubmedMcp

/-- A JSON value, as produced by `response.json()` on the job endpoint's
reply. Models Python dicts as ordered association lists (keys unique in
practice; lookup takes the first match, as a Python dict read does). -/
inductive Json where
  | null
  | bool (b : Bool)
  | num (n : Int)
  | str (s : String)
  | arr (elems : List Json)
  | obj (fields : List (String × Json))

/-- First value bound to `key`, like a Python dict read. -/
def lookupField : List (String × Json) → String → Option Json
  | [], _ => none
  | (k, v) :: rest, key => if k = key then some v else lookupField rest key

/-- Python `d.get(key)` on a JSON object; `none` on any other JSON value. -/
def Json.get : Json → String → Option Json
  | .obj fields, key => lookupField fields key
  | _, _ => none

mutual
/-- Python `repr` of a JSON value (used by `str()` on dicts and lists). -/
def pyRepr : Json → String
  | .null => "None"
  | .bool true => "True"
  | .bool false => "False"
  | .num n => toString n
  | .str s => "\x27" ++ s ++ "\x27"
  | .arr elems => "[" ++ pyReprElems elems ++ "]"
  | .obj fields => "\x7b" ++ pyReprFields fields ++ "\x7d"

/-- Comma-joined reprs of the elements of a JSON array. -/
def pyReprElems : List Json → String
  | [] => ""
  | [j] => pyRepr j
  | j :: rest => pyRepr j ++ ", " ++ pyReprElems rest

/-- Comma-joined reprs of the fields of a JSON object. -/
def pyReprFields : List (String × Json) → String
  | [] => ""
  | [(k, v)] => "\x27" ++ k ++ "\x27: " ++ pyRepr v
  | (k, v) :: rest => "\x27" ++ k ++ "\x27: " ++ pyRepr v ++ ", " ++ pyReprFields rest
end

/-- Python `str()` of a JSON value: a string is rendered verbatim, anything
else through `repr` (as an f-string or `str(output)` does). -/
def pyStr (j : Json) : String :=
  match j with
  | .str s => s
  | j => pyRepr j

/-- Interpretation half of `call_jiminy_tool` (src/jiminy.py lines 257-274),
applied to the parsed JSON response of the `/runsync` job endpoint. The
HTTP submission itself is abstracted away: this function receives the
parsed response. The queued / in-progress notice is written out literally;
the source computes the same string via `status.lower().replace` on the
matched status. The model assumes the `output` field, when present, is a
JSON object, as the endpoint's protocol prescribes. -/
def call_jiminy_tool (result : Json) : Json :=
  match result.get "status" with
  | some (.str s) =>
    if s = "FAILED" then
      .str ("Error: " ++ pyStr ((result.get "error").getD (.str "Unknown error")))
    else if s = "IN_QUEUE" then
      .str "Error: Job in queue - try again later"
    else if s = "IN_PROGRESS" then
      .str "Error: Job in progress - try again later"
    else
      interpretOutput ((result.get "output").getD (.obj []))
  | _ => interpretOutput ((result.get "output").getD (.obj []))
where
  /-- The fallthrough of `call_jiminy_tool`: `output.result`, else
  `output.error`, else `str(output)` verbatim. -/
  interpretOutput (output : Json) : Json :=
    match output.get "result" with
    | some v => v
    | none =>
      match output.get "error" with
      | some e => .str ("Error: " ++ pyStr e)
      | none => .str (pyStr output)

/-- One content block of a model response. Covers both variants of the
repository: `text` / `tool_use` blocks seen by src/jiminy.py and
`mcp_tool_use` / `mcp_tool_result` blocks seen by src/main.py. -/
inductive ContentBlock where
  | text (s : String)
  | toolUse (id name : String) (input : Json)
  | mcpToolUse (id name : String) (input : Json)
  | mcpToolResult (tool_use_id : String) (content : String)

/-- The tool-result dict built by `run_jiminy_agent`. The source omits the
`is_error` key on the success path; an absent key is modelled as
`is_error = false`. -/
structure ToolResult where
  tool_use_id : String
  content : String
  is_error : Bool
deriving DecidableEq

/-- The `content` field of a transcript message: a plain string (the user
question, or the fixed continuation instruction of src/main.py), an
assistant block list, or a grouped tool-results turn. -/
inductive MsgContent where
  | text (s : String)
  | blocks (bs : List ContentBlock)
  | results (rs : List ToolResult)

/-- One message of the conversation transcript. -/
structure Message where
  role : String
  content : MsgContent

/-- A model response: `stop_reason` and the ordered content blocks. -/
structure ModelResponse where
  stop_reason : String
  content : List ContentBlock

/-- Outcome of a run: the returned answer, the final `messages` list, and
the number of inference calls performed. -/
structure RunResult where
  answer : String
  transcript : List Message
  calls : Nat

/-- The deterministic inference stub type: the full transcript in, one
model response out. -/
def InfFn := List Message → ModelResponse

/-- The tool invocation boundary: `.ok` is the string returned by
`call_jiminy_tool`, `.error` models a raised transport exception carrying
`str(e)`. -/
def ToolFn := String → Json → Except String String

/-- The `final_text` accumulation: concatenation, in response order, of the
`text` blocks of one response (src/jiminy.py line 324-325, src/main.py
line 113-114). -/
def extractText : List ContentBlock → String
  | [] => ""
  | .text s :: rest => s ++ extractText rest
  | _ :: rest => extractText rest

/-- The per-block `try`/`except` of src/jiminy.py lines 350-382: the tool
result on success, and a caught exception converted to an `is_error`
result on failure. -/
def runToolUse (toolFn : ToolFn) (id name : String) (input : Json) : ToolResult :=
  match toolFn name input with
  | .ok result => ⟨id, result, false⟩
  | .error e => ⟨id, "Error calling tool: " ++ e, true⟩

/-- The `tool_results` list built across one response's blocks, in response
order, one result per `tool_use` block. -/
def toolResultsFor (toolFn : ToolFn) : List ContentBlock → List ToolResult
  | [] => []
  | .toolUse id name input :: rest => runToolUse toolFn id name input :: toolResultsFor toolFn rest
  | _ :: rest => toolResultsFor toolFn rest

/-- The `has_tool_use` flag of src/jiminy.py: some `tool_use` block is present. -/
def hasToolUse : List ContentBlock → Bool
  | [] => false
  | .toolUse _ _ _ :: _ => true
  | _ :: rest => hasToolUse rest

/-- The `has_tool_use` flag of src/main.py: some `mcp_tool_use` block is present. -/
def hasMcpToolUse : List ContentBlock → Bool
  | [] => false
  | .mcpToolUse _ _ _ :: _ => true
  | _ :: rest => hasMcpToolUse rest

/-- The ids of the `tool_use` blocks of a response, in order. -/
def toolUseIds : List ContentBlock → List String
  | [] => []
  | .toolUse id _ _ :: rest => id :: toolUseIds rest
  | _ :: rest => toolUseIds rest

/-- The sentinel returned when the iteration ceiling is exhausted
(src/jiminy.py line 403, src/main.py line 175). -/
def abortMessage : String :=
  "Error: Maximum iterations reached without completing the research."

/-- The fixed continuation instruction src/main.py appends as the next user
turn after a delegated tool use (line 165). -/
def continueInstruction : String :=
  "Please continue analyzing the results and provide your answer."

/-- The `while iteration < max_iterations` loop of `run_jiminy_agent`
(src/jiminy.py lines 303-403), with the remaining iteration budget as
fuel. Each unfolding performs one inference call; on `end_turn` without
tool use, or on any response without tool use, the run returns
`final_text`; on tool use the assistant turn and the grouped results turn
are appended and the loop continues; exhausted fuel returns the sentinel. -/
def jiminyLoop (infFn : InfFn) (toolFn : ToolFn) : Nat → List Message → Nat → RunResult
  | 0, messages, calls => ⟨abortMessage, messages, calls⟩
  | fuel + 1, messages, calls =>
    let response := infFn messages
    if response.stop_reason = "end_turn" ∧ hasToolUse response.content = false then
      ⟨extractText response.content, messages, calls + 1⟩
    else if hasToolUse response.content = true then
      jiminyLoop infFn toolFn fuel
        (messages ++ [⟨"assistant", .blocks response.content⟩,
                      ⟨"user", .results (toolResultsFor toolFn response.content)⟩])
        (calls + 1)
    else
      ⟨extractText response.content, messages, calls + 1⟩

/-- Entry point `run_jiminy_agent` (src/jiminy.py lines 277-403): seeds the transcript
with the question as a user turn and runs the loop. The source fixes
`max_iterations = 20`; it is a parameter here. -/
def run_jiminy_agent (infFn : InfFn) (toolFn : ToolFn) (max_iterations : Nat)
    (research_question : String) : RunResult :=
  jiminyLoop infFn toolFn max_iterations [⟨"user", .text research_question⟩] 0

/-- The `while iteration < max_iterations` loop of `run_pubmed_agent`
(src/main.py lines 80-175), Delegated dispatch mode: tool execution is the
provider's business; on `mcp_tool_use` the assistant turn and the fixed
continuation instruction are appended. -/
def pubmedLoop (infFn : InfFn) : Nat → List Message → Nat → RunResult
  | 0, messages, calls => ⟨abortMessage, messages, calls⟩
  | fuel + 1, messages, calls =>
    let response := infFn messages
    if response.stop_reason = "end_turn" ∧ hasMcpToolUse response.content = false then
      ⟨extractText response.content, messages, calls + 1⟩
    else if hasMcpToolUse response.content = true then
      pubmedLoop infFn fuel
        (messages ++ [⟨"assistant", .blocks response.content⟩,
                      ⟨"user", .text continueInstruction⟩])
        (calls + 1)
    else
      ⟨extractText response.content, messages, calls + 1⟩

/-- Entry point `run_pubmed_agent` (src/main.py lines 54-175), `max_iterations`
as a parameter (the source fixes 20). -/
def run_pubmed_agent (infFn : InfFn) (max_iterations : Nat)
    (research_question : String) : RunResult :=
  pubmedLoop infFn max_iterations [⟨"user", .text research_question⟩] 0

/-- The Local-mode tool function induced by a job endpoint whose HTTP layer
succeeds: the parsed response of `endpoint`, interpreted by
`call_jiminy_tool`. The source returns the raw `output.result` value; a
non-string value is rendered through `str()` here, string values pass
through verbatim. -/
def endpointToolFn (endpoint : String → Json → Json) : ToolFn :=
  fun name args => .ok (pyStr (call_jiminy_tool (endpoint name args)))

/-! ### Step equations and invariants of the two loops -/

/-- The two messages src/jiminy.py appends after a tool-using response. -/
def jiminyAppended (toolFn : ToolFn) (c : List ContentBlock) : List Message :=
  [⟨"assistant", .blocks c⟩, ⟨"user", .results (toolResultsFor toolFn c)⟩]

/-- The two messages src/main.py appends after a tool-using response. -/
def pubmedAppended (c : List ContentBlock) : List Message :=
  [⟨"assistant", .blocks c⟩, ⟨"user", .text continueInstruction⟩]

theorem jiminyLoop_zero (infFn : InfFn) (toolFn : ToolFn) (msgs : List Message) (calls : Nat) :
    jiminyLoop infFn toolFn 0 msgs calls = ⟨abortMessage, msgs, calls⟩ := rfl

theorem jiminyLoop_succ_noTool (infFn : InfFn) (toolFn : ToolFn) (fuel : Nat)
    (msgs : List Message) (calls : Nat) (h : hasToolUse (infFn msgs).content = false) :
    jiminyLoop infFn toolFn (fuel + 1) msgs calls =
      ⟨extractText (infFn msgs).content, msgs, calls + 1⟩ := by
  by_cases hs : (infFn msgs).stop_reason = "end_turn"
  · simp [jiminyLoop, hs, h]
  · simp [jiminyLoop, hs, h]

theorem jiminyLoop_succ_tool (infFn : InfFn) (toolFn : ToolFn) (fuel : Nat)
    (msgs : List Message) (calls : Nat) (h : hasToolUse (infFn msgs).content = true) :
    jiminyLoop infFn toolFn (fuel + 1) msgs calls =
      jiminyLoop infFn toolFn fuel
        (msgs ++ jiminyAppended toolFn (infFn msgs).content) (calls + 1) := by
  simp [jiminyLoop, h, jiminyAppended]

theorem pubmedLoop_zero (infFn : InfFn) (msgs : List Message) (calls : Nat) :
    pubmedLoop infFn 0 msgs calls = ⟨abortMessage, msgs, calls⟩ := rfl

theorem pubmedLoop_succ_noTool (infFn : InfFn) (fuel : Nat)
    (msgs : List Message) (calls : Nat) (h : hasMcpToolUse (infFn msgs).content = false) :
    pubmedLoop infFn (fuel + 1) msgs calls =
      ⟨extractText (infFn msgs).content, msgs, calls + 1⟩ := by
  by_cases hs : (infFn msgs).stop_reason = "end_turn"
  · simp [pubmedLoop, hs, h]
  · simp [pubmedLoop, hs, h]

theorem pubmedLoop_succ_tool (infFn : InfFn) (fuel : Nat)
    (msgs : List Message) (calls : Nat) (h : hasMcpToolUse (infFn msgs).content = true) :
    pubmedLoop infFn (fuel + 1) msgs calls =
      pubmedLoop infFn fuel (msgs ++ pubmedAppended (infFn msgs).content) (calls + 1) := by
  simp [pubmedLoop, h, pubmedAppended]

theorem jiminyLoop_extends (infFn : InfFn) (toolFn : ToolFn) :
    ∀ (fuel : Nat) (msgs : List Message) (calls : Nat),
      ∃ t, (jiminyLoop infFn toolFn fuel msgs calls).transcript = msgs ++ t := by
  intro fuel
  induction fuel with
  | zero => exact fun msgs calls => ⟨[], by simp [jiminyLoop_zero]⟩
  | succ n ih =>
    intro msgs calls
    by_cases h : hasToolUse (infFn msgs).content = true
    · rw [jiminyLoop_succ_tool infFn toolFn n msgs calls h]
      obtain ⟨t, ht⟩ := ih (msgs ++ jiminyAppended toolFn (infFn msgs).content) (calls + 1)
      exact ⟨jiminyAppended toolFn (infFn msgs).content ++ t, by rw [ht, List.append_assoc]⟩
    · rw [jiminyLoop_succ_noTool infFn toolFn n msgs calls (by simpa using h)]
      exact ⟨[], by simp⟩

theorem pubmedLoop_extends (infFn : InfFn) :
    ∀ (fuel : Nat) (msgs : List Message) (calls : Nat),
      ∃ t, (pubmedLoop infFn fuel msgs calls).transcript = msgs ++ t := by
  intro fuel
  induction fuel with
  | zero => exact fun msgs calls => ⟨[], by simp [pubmedLoop_zero]⟩
  | succ n ih =>
    intro msgs calls
    by_cases h : hasMcpToolUse (infFn msgs).content = true
    · rw [pubmedLoop_succ_tool infFn n msgs calls h]
      obtain ⟨t, ht⟩ := ih (msgs ++ pubmedAppended (infFn msgs).content) (calls + 1)
      exact ⟨pubmedAppended (infFn msgs).content ++ t, by rw [ht, List.append_assoc]⟩
    · rw [pubmedLoop_succ_noTool infFn n msgs calls (by simpa using h)]
      exact ⟨[], by simp⟩

theorem jiminyLoop_calls_le (infFn : InfFn) (toolFn : ToolFn) :
    ∀ (fuel : Nat) (msgs : List Message) (calls : Nat),
      (jiminyLoop infFn toolFn fuel msgs calls).calls ≤ calls + fuel := by
  intro fuel
  induction fuel with
  | zero => intro msgs calls; simp [jiminyLoop_zero]
  | succ n ih =>
    intro msgs calls
    by_cases h : hasToolUse (infFn msgs).content = true
    · rw [jiminyLoop_succ_tool infFn toolFn n msgs calls h]
      have := ih (msgs ++ jiminyAppended toolFn (infFn msgs).content) (calls + 1)
      omega
    · rw [jiminyLoop_succ_noTool infFn toolFn n msgs calls (by simpa using h)]
      simp

theorem pubmedLoop_calls_le (infFn : InfFn) :
    ∀ (fuel : Nat) (msgs : List Message) (calls : Nat),
      (pubmedLoop infFn fuel msgs calls).calls ≤ calls + fuel := by
  intro fuel
  induction fuel with
  | zero => intro msgs calls; simp [pubmedLoop_zero]
  | succ n ih =>
    intro msgs calls
    by_cases h : hasMcpToolUse (infFn msgs).content = true
    · rw [pubmedLoop_succ_tool infFn n msgs calls h]
      have := ih (msgs ++ pubmedAppended (infFn msgs).content) (calls + 1)
      omega
    · rw [pubmedLoop_succ_noTool infFn n msgs calls (by simpa using h)]
      simp

theorem jiminyLoop_always_tool (infFn : InfFn) (toolFn : ToolFn)
    (h : ∀ msgs, hasToolUse (infFn msgs).content = true) :
    ∀ (fuel : Nat) (msgs : List Message) (calls : Nat),
      (jiminyLoop infFn toolFn fuel msgs calls).calls = calls + fuel ∧
        (jiminyLoop infFn toolFn fuel msgs calls).answer = abortMessage := by
  intro fuel
  induction fuel with
  | zero => intro msgs calls; simp [jiminyLoop_zero]
  | succ n ih =>
    intro msgs calls
    rw [jiminyLoop_succ_tool infFn toolFn n msgs calls (h msgs)]
    have := ih (msgs ++ jiminyAppended toolFn (infFn msgs).content) (calls + 1)
    exact ⟨by omega, this.2⟩

theorem pubmedLoop_always_tool (infFn : InfFn)
    (h : ∀ msgs, hasMcpToolUse (infFn msgs).content = true) :
    ∀ (fuel : Nat) (msgs : List Message) (calls : Nat),
      (pubmedLoop infFn fuel msgs calls).calls = calls + fuel ∧
        (pubmedLoop infFn fuel msgs calls).answer = abortMessage := by
  intro fuel
  induction fuel with
  | zero => intro msgs calls; simp [pubmedLoop_zero]
  | succ n ih =>
    intro msgs calls
    rw [pubmedLoop_succ_tool infFn n msgs calls (h msgs)]
    have := ih (msgs ++ pubmedAppended (infFn msgs).content) (calls + 1)
    exact ⟨by omega, this.2⟩

theorem jiminyLoop_answer_shape (infFn : InfFn) (toolFn : ToolFn) :
    ∀ (fuel : Nat) (msgs : List Message) (calls : Nat),
      (jiminyLoop infFn toolFn fuel msgs calls).answer = abortMessage ∨
        (jiminyLoop infFn toolFn fuel msgs calls).answer =
          extractText (infFn (jiminyLoop infFn toolFn fuel msgs calls).transcript).content := by
  intro fuel
  induction fuel with
  | zero => intro msgs calls; exact Or.inl rfl
  | succ n ih =>
    intro msgs calls
    by_cases h : hasToolUse (infFn msgs).content = true
    · rw [jiminyLoop_succ_tool infFn toolFn n msgs calls h]
      exact ih _ _
    · rw [jiminyLoop_succ_noTool infFn toolFn n msgs calls (by simpa using h)]
      exact Or.inr rfl

theorem pubmedLoop_answer_shape (infFn : InfFn) :
    ∀ (fuel : Nat) (msgs : List Message) (calls : Nat),
      (pubmedLoop infFn fuel msgs calls).answer = abortMessage ∨
        (pubmedLoop infFn fuel msgs calls).answer =
          extractText (infFn (pubmedLoop infFn fuel msgs calls).transcript).content := by
  intro fuel
  induction fuel with
  | zero => intro msgs calls; exact Or.inl rfl
  | succ n ih =>
    intro msgs calls
    by_cases h : hasMcpToolUse (infFn msgs).content = true
    · rw [pubmedLoop_succ_tool infFn n msgs calls h]
      exact ih _ _
    · rw [pubmedLoop_succ_noTool infFn n msgs calls (by simpa using h)]
      exact Or.inr rfl

theorem runToolUse_id (toolFn : ToolFn) (id name : String) (input : Json) :
    (runToolUse toolFn id name input).tool_use_id = id := by
  unfold runToolUse
  cases toolFn name input <;> rfl

theorem toolResultsFor_map_ids (toolFn : ToolFn) :
    ∀ c : List ContentBlock,
      (toolResultsFor toolFn c).map (fun r => r.tool_use_id) = toolUseIds c := by
  intro c
  induction c with
  | nil => rfl
  | cons b rest ih =>
    cases b with
    | text s => simpa [toolResultsFor, toolUseIds] using ih
    | toolUse id name input => simp [toolResultsFor, toolUseIds, runToolUse_id, ih]
    | mcpToolUse id name input => simpa [toolResultsFor, toolUseIds] using ih
    | mcpToolResult id c2 => simpa [toolResultsFor, toolUseIds] using ih

/-- The transcript invariant behind claim C7: no results turn opens the
transcript, and every results turn is immediately preceded by an assistant
blocks turn whose tool-use ids it echoes, in order. -/
def resultsTurnsMatched (ms : List Message) : Prop :=
  (∀ role rs, ms.get? 0 ≠ some ⟨role, .results rs⟩) ∧
  ∀ i role rs, ms.get? (i + 1) = some ⟨role, .results rs⟩ →
    ∃ bs, ms.get? i = some ⟨"assistant", .blocks bs⟩ ∧
      rs.map (fun r => r.tool_use_id) = toolUseIds bs

theorem resultsTurnsMatched_seed (q : String) :
    resultsTurnsMatched [⟨"user", .text q⟩] := by
  constructor
  · intro role rs hcontra
    simp [List.get?] at hcontra
  · intro i role rs hres
    rw [List.get?_len_le (by simp)] at hres
    simp at hres

theorem resultsTurnsMatched_append (ms : List Message) (toolFn : ToolFn)
    (c : List ContentBlock) (h : resultsTurnsMatched ms) :
    resultsTurnsMatched (ms ++ jiminyAppended toolFn c) := by
  constructor
  · intro role rs hcontra
    cases hms : ms with
    | nil =>
      subst hms
      simp [jiminyAppended, List.get?] at hcontra
    | cons m rest =>
      subst hms
      rw [List.get?_append (by simp)] at hcontra
      exact h.1 role rs hcontra
  · intro i role rs hres
    rcases Nat.lt_or_ge (i + 1) ms.length with hlt | hge
    · rw [List.get?_append hlt] at hres
      obtain ⟨bs, hbs, hmap⟩ := h.2 i role rs hres
      refine ⟨bs, ?_, hmap⟩
      rw [List.get?_append (Nat.lt_of_succ_lt hlt)]
      exact hbs
    · rw [List.get?_append_right hge] at hres
      cases hdiff : i + 1 - ms.length with
      | zero =>
        rw [hdiff] at hres
        simp [jiminyAppended, List.get?] at hres
      | succ k =>
        cases k with
        | zero =>
          rw [hdiff] at hres
          simp [jiminyAppended, List.get?] at hres
          have hi : i = ms.length := by omega
          refine ⟨c, ?_, ?_⟩
          · rw [List.get?_append_right (by omega), hi]
            simp [jiminyAppended, List.get?]
          · rw [← hres.2]
            exact toolResultsFor_map_ids toolFn c
        | succ k2 =>
          rw [hdiff] at hres
          rw [List.get?_len_le (by simp [jiminyAppended])] at hres
          simp at hres

theorem jiminyLoop_matched (infFn : InfFn) (toolFn : ToolFn) :
    ∀ (fuel : Nat) (msgs : List Message) (calls : Nat),
      resultsTurnsMatched msgs →
        resultsTurnsMatched (jiminyLoop infFn toolFn fuel msgs calls).transcript := by
  intro fuel
  induction fuel with
  | zero => intro msgs calls h; exact h
  | succ n ih =>
    intro msgs calls h
    by_cases htu : hasToolUse (infFn msgs).content = true
    · rw [jiminyLoop_succ_tool infFn toolFn n msgs calls htu]
      exact ih _ _ (resultsTurnsMatched_append msgs toolFn (infFn msgs).content h)
    · rw [jiminyLoop_succ_noTool infFn toolFn n msgs calls (by simpa using htu)]
      exact h

/-! ### Concrete stubs for counterexamples and witnesses -/

/-- Scripted inference stub: a first response with text "A" and one tool
use, then a final response with text "B" and no tool use. -/
def c1Inf : InfFn := fun msgs =>
  if msgs.length = 1 then
    ⟨"tool_use", [.text "A", .toolUse "t1" "search_papers" (.obj [("query", .str "X")])]⟩
  else
    ⟨"end_turn", [.text "B"]⟩

/-- Tool stub that always succeeds with a fixed payload. -/
def c1Tool : ToolFn := fun _ _ => .ok "ok"

/-- Job endpoint stub that always reports IN_QUEUE. -/
def c2Endpoint : String → Json → Json := fun _ _ => .obj [("status", .str "IN_QUEUE")]

/-- Scripted inference stub: one tool use on the first call, then a final
text response. -/
def c2Inf : InfFn := fun msgs =>
  if msgs.length = 1 then ⟨"tool_use", [.toolUse "t1" "search_papers" (.obj [])]⟩
  else ⟨"end_turn", [.text "done"]⟩

/-- Inference stub that ends immediately with text "42" and no tool use. -/
def wDoneInf : InfFn := fun _ => ⟨"end_turn", [.text "42"]⟩

/-- Inference stub that always requests one local tool use and never
signals end of turn. -/
def wToolInf : InfFn := fun _ => ⟨"tool_use", [.toolUse "t1" "search_papers" (.obj [])]⟩

/-- Inference stub that always emits one delegated tool use and never
signals end of turn. -/
def wPubToolInf : InfFn := fun _ => ⟨"tool_use", [.mcpToolUse "m1" "search_articles" (.obj [])]⟩

/-- Tool stub that always succeeds. -/
def wTool : ToolFn := fun _ _ => .ok "ok"

/-- Tool stub whose every invocation raises a transport exception. -/
def wToolErr : ToolFn := fun _ _ => .error "boom"

/-! ### Claims -/

/-- C1 counterexample: with the two-response script (first response carries
text "A" plus a tool use, second response carries text "B"), the run
returns "B" — the text of the last response only — whereas the
concatenation of every text block observed across the run is "AB". -/
theorem C1_counterexample :
    (run_jiminy_agent c1Inf c1Tool 20 "Q").answer = "B" ∧
    extractText (c1Inf [⟨"user", .text "Q"⟩]).content = "A" ∧
    ("B" : String) ≠ "A" ++ "B" :=
  ⟨rfl, rfl, by decide⟩

/-- C1 (amended): on DONE the final answer is the concatenation, in order,
of the text blocks of the last model response only — the response computed
on the final transcript; text of earlier responses is discarded because
`final_text` is reset on every iteration. Otherwise the run aborted with
the sentinel. Holds for both loop variants. -/
theorem C1_answer_is_last_response_text (infFn : InfFn) (toolFn : ToolFn) (pubInf : InfFn)
    (fuel : Nat) (msgs : List Message) (calls : Nat) :
    ((jiminyLoop infFn toolFn fuel msgs calls).answer = abortMessage ∨
      (jiminyLoop infFn toolFn fuel msgs calls).answer =
        extractText (infFn (jiminyLoop infFn toolFn fuel msgs calls).transcript).content) ∧
    ((pubmedLoop pubInf fuel msgs calls).answer = abortMessage ∨
      (pubmedLoop pubInf fuel msgs calls).answer =
        extractText (pubInf (pubmedLoop pubInf fuel msgs calls).transcript).content) :=
  ⟨jiminyLoop_answer_shape infFn toolFn fuel msgs calls,
   pubmedLoop_answer_shape pubInf fuel msgs calls⟩

/-- C2 counterexample: in the concrete Local-mode run whose job endpoint
replies with status IN_QUEUE, the appended tool result carries the
"try again later" notice in its content but its `is_error` flag is false —
the source only sets `is_error` for caught exceptions — refuting the
claimed `is_error = true`. -/
theorem C2_counterexample :
    (run_jiminy_agent c2Inf (endpointToolFn c2Endpoint) 20 "Q").transcript.get? 2 =
      some ⟨"user", .results [⟨"t1", "Error: Job in queue - try again later", false⟩]⟩ ∧
    (ToolResult.mk "t1" "Error: Job in queue - try again later" false).is_error ≠ true :=
  ⟨rfl, by decide⟩

/-- C2 (amended): when the job endpoint reports IN_QUEUE, IN_PROGRESS or
FAILED, the tool invocation returns normally with the corresponding error
notice ("try again later" for the transient statuses, the endpoint's error
message for FAILED), so the outcome appended to the transcript is a tool
result whose content carries that notice but whose `is_error` flag is
false (the key is absent in the source), and the run continues rather than
aborting. -/
theorem C2_transient_status_plain_result (endpoint : String → Json → Json)
    (id name : String) (args : Json) (infFn : InfFn)
    (fuel : Nat) (msgs : List Message) (calls : Nat) :
    ((endpoint name args).get "status" = some (.str "IN_QUEUE") →
      runToolUse (endpointToolFn endpoint) id name args =
        ⟨id, "Error: Job in queue - try again later", false⟩) ∧
    ((endpoint name args).get "status" = some (.str "IN_PROGRESS") →
      runToolUse (endpointToolFn endpoint) id name args =
        ⟨id, "Error: Job in progress - try again later", false⟩) ∧
    ((endpoint name args).get "status" = some (.str "FAILED") →
      runToolUse (endpointToolFn endpoint) id name args =
        ⟨id, "Error: " ++ pyStr (((endpoint name args).get "error").getD (.str "Unknown error")),
         false⟩) ∧
    (hasToolUse (infFn msgs).content = true →
      jiminyLoop infFn (endpointToolFn endpoint) (fuel + 1) msgs calls =
        jiminyLoop infFn (endpointToolFn endpoint) fuel
          (msgs ++ jiminyAppended (endpointToolFn endpoint) (infFn msgs).content)
          (calls + 1)) := by
  refine ⟨?_, ?_, ?_,
    jiminyLoop_succ_tool infFn (endpointToolFn endpoint) fuel msgs calls⟩
  · intro h
    have hc : call_jiminy_tool (endpoint name args) =
        .str "Error: Job in queue - try again later" := by
      unfold call_jiminy_tool
      rw [h]
      rfl
    unfold runToolUse endpointToolFn
    rw [hc]
    rfl
  · intro h
    have hc : call_jiminy_tool (endpoint name args) =
        .str "Error: Job in progress - try again later" := by
      unfold call_jiminy_tool
      rw [h]
      rfl
    unfold runToolUse endpointToolFn
    rw [hc]
    rfl
  · intro h
    have hc : call_jiminy_tool (endpoint name args) =
        .str ("Error: " ++ pyStr (((endpoint name args).get "error").getD
          (.str "Unknown error"))) := by
      unfold call_jiminy_tool
      rw [h]
      rfl
    unfold runToolUse endpointToolFn
    rw [hc]
    rfl

/-- C2 witness: the amended statement evaluated on the IN_QUEUE endpoint. -/
theorem C2_witness :
    runToolUse (endpointToolFn c2Endpoint) "t1" "search_papers" (.obj []) =
      ⟨"t1", "Error: Job in queue - try again later", false⟩ ∧
    jiminyLoop c2Inf (endpointToolFn c2Endpoint) 1 [⟨"user", .text "Q"⟩] 0 =
      jiminyLoop c2Inf (endpointToolFn c2Endpoint) 0
        ([⟨"user", .text "Q"⟩] ++
          jiminyAppended (endpointToolFn c2Endpoint) (c2Inf [⟨"user", .text "Q"⟩]).content) 1 :=
  ⟨(C2_transient_status_plain_result c2Endpoint "t1" "search_papers" (.obj []) c2Inf 0
      [⟨"user", .text "Q"⟩] 0).1 rfl,
   (C2_transient_status_plain_result c2Endpoint "t1" "search_papers" (.obj []) c2Inf 0
      [⟨"user", .text "Q"⟩] 0).2.2.2 rfl⟩

/-- C3: on every iteration, a response without tool-use blocks ends the run
with that response's accumulated text — the statement holds for every
`stop_reason`, so both with and without the end-of-turn signal — and a
response with at least one tool-use block keeps the run going even when
the stop condition is `end_turn`; for both loop variants. -/
theorem C3_termination_rule (infFn : InfFn) (toolFn : ToolFn) (pubInf : InfFn)
    (fuel : Nat) (msgs : List Message) (calls : Nat) :
    (hasToolUse (infFn msgs).content = false →
      jiminyLoop infFn toolFn (fuel + 1) msgs calls =
        ⟨extractText (infFn msgs).content, msgs, calls + 1⟩) ∧
    (hasToolUse (infFn msgs).content = true →
      jiminyLoop infFn toolFn (fuel + 1) msgs calls =
        jiminyLoop infFn toolFn fuel
          (msgs ++ jiminyAppended toolFn (infFn msgs).content) (calls + 1)) ∧
    (hasMcpToolUse (pubInf msgs).content = false →
      pubmedLoop pubInf (fuel + 1) msgs calls =
        ⟨extractText (pubInf msgs).content, msgs, calls + 1⟩) ∧
    (hasMcpToolUse (pubInf msgs).content = true →
      pubmedLoop pubInf (fuel + 1) msgs calls =
        pubmedLoop pubInf fuel (msgs ++ pubmedAppended (pubInf msgs).content) (calls + 1)) :=
  ⟨jiminyLoop_succ_noTool infFn toolFn fuel msgs calls,
   jiminyLoop_succ_tool infFn toolFn fuel msgs calls,
   pubmedLoop_succ_noTool pubInf fuel msgs calls,
   pubmedLoop_succ_tool pubInf fuel msgs calls⟩

/-- C3 witness: a no-tool-use response ends the run with its text, and a
tool-using response recurses, at concrete stubs. -/
theorem C3_witness :
    jiminyLoop wDoneInf wTool 1 [⟨"user", .text "Q"⟩] 0 =
      ⟨"42", [⟨"user", .text "Q"⟩], 1⟩ ∧
    pubmedLoop wPubToolInf 1 [⟨"user", .text "Q"⟩] 0 =
      pubmedLoop wPubToolInf 0
        ([⟨"user", .text "Q"⟩] ++
          pubmedAppended (wPubToolInf [⟨"user", .text "Q"⟩]).content) 1 :=
  ⟨(C3_termination_rule wDoneInf wTool wPubToolInf 0 [⟨"user", .text "Q"⟩] 0).1 rfl,
   (C3_termination_rule wDoneInf wTool wPubToolInf 0 [⟨"user", .text "Q"⟩] 0).2.2.2 rfl⟩

/-- C4: with iteration ceiling N, the loop performs at most N inference
calls; when every response carries a tool use and never signals end of
turn, it performs exactly N calls and then returns the fixed sentinel
abort message as a normal value (the loop is a total function) — both
variants. -/
theorem C4_iteration_ceiling (infFn : InfFn) (toolFn : ToolFn) (pubInf : InfFn)
    (N : Nat) (q : String) :
    (run_jiminy_agent infFn toolFn N q).calls ≤ N ∧
    ((∀ msgs, hasToolUse (infFn msgs).content = true ∧
        (infFn msgs).stop_reason ≠ "end_turn") →
      (run_jiminy_agent infFn toolFn N q).calls = N ∧
        (run_jiminy_agent infFn toolFn N q).answer = abortMessage) ∧
    (run_pubmed_agent pubInf N q).calls ≤ N ∧
    ((∀ msgs, hasMcpToolUse (pubInf msgs).content = true ∧
        (pubInf msgs).stop_reason ≠ "end_turn") →
      (run_pubmed_agent pubInf N q).calls = N ∧
        (run_pubmed_agent pubInf N q).answer = abortMessage) := by
  refine ⟨?_, ?_, ?_, ?_⟩
  · simpa [run_jiminy_agent] using jiminyLoop_calls_le infFn toolFn N [⟨"user", .text q⟩] 0
  · intro h
    have := jiminyLoop_always_tool infFn toolFn (fun msgs => (h msgs).1) N
      [⟨"user", .text q⟩] 0
    simpa [run_jiminy_agent] using this
  · simpa [run_pubmed_agent] using pubmedLoop_calls_le pubInf N [⟨"user", .text q⟩] 0
  · intro h
    have := pubmedLoop_always_tool pubInf (fun msgs => (h msgs).1) N [⟨"user", .text q⟩] 0
    simpa [run_pubmed_agent] using this

/-- C4 witness: scenario D — the always-tool-using stub with ceiling 3
performs exactly 3 calls and returns the sentinel, in both variants. -/
theorem C4_witness :
    (run_jiminy_agent wToolInf wTool 3 "Q").calls = 3 ∧
    (run_jiminy_agent wToolInf wTool 3 "Q").answer = abortMessage ∧
    (run_pubmed_agent wPubToolInf 3 "Q").calls = 3 ∧
    (run_pubmed_agent wPubToolInf 3 "Q").answer = abortMessage := by
  have hne : ("tool_use" : String) ≠ "end_turn" := by decide
  have hj := (C4_iteration_ceiling wToolInf wTool wPubToolInf 3 "Q").2.1
    (fun msgs => ⟨rfl, hne⟩)
  have hp := (C4_iteration_ceiling wToolInf wTool wPubToolInf 3 "Q").2.2.2
    (fun msgs => ⟨rfl, hne⟩)
  exact ⟨hj.1, hj.2, hp.1, hp.2⟩

/-- C5: a transport exception raised by a Local-mode tool invocation
(modelled as the `.error` branch of the tool function) is caught at the
invocation boundary and converted into an appended ToolResult with
`is_error = true` whose content carries the exception message, and the
loop continues (it is a total function whose step recurses). -/
theorem C5_exception_to_error_result (toolFn : ToolFn) (id name : String) (args : Json)
    (e : String) (h : toolFn name args = .error e) (infFn : InfFn)
    (rest : List ContentBlock) (fuel : Nat) (msgs : List Message) (calls : Nat) :
    runToolUse toolFn id name args = ⟨id, "Error calling tool: " ++ e, true⟩ ∧
    toolResultsFor toolFn (.toolUse id name args :: rest) =
      ⟨id, "Error calling tool: " ++ e, true⟩ :: toolResultsFor toolFn rest ∧
    (hasToolUse (infFn msgs).content = true →
      jiminyLoop infFn toolFn (fuel + 1) msgs calls =
        jiminyLoop infFn toolFn fuel
          (msgs ++ jiminyAppended toolFn (infFn msgs).content) (calls + 1)) := by
  have h1 : runToolUse toolFn id name args = ⟨id, "Error calling tool: " ++ e, true⟩ := by
    unfold runToolUse
    rw [h]
  exact ⟨h1, by simp [toolResultsFor, h1],
    jiminyLoop_succ_tool infFn toolFn fuel msgs calls⟩

/-- C5 witness: the always-raising tool stub yields the error result. -/
theorem C5_witness :
    runToolUse wToolErr "t1" "search_papers" (.obj []) =
      ⟨"t1", "Error calling tool: boom", true⟩ :=
  (C5_exception_to_error_result wToolErr "t1" "search_papers" (.obj []) "boom" rfl
    wToolInf [] 0 [] 0).1

/-- C6: the Local-mode interpretation of the endpoint's parsed JSON
response tests its branches in exactly this order: status FAILED yields an
error outcome carrying the endpoint's error message (whatever the output
holds); status IN_QUEUE or IN_PROGRESS yields the "try again later"
transient error outcome; otherwise `output.result` is returned when
present (even when `output.error` is also present), else an error outcome
from `output.error`, else the verbatim string rendering of the whole
output. -/
theorem C6_endpoint_interpretation (r : Json) :
    (r.get "status" = some (.str "FAILED") →
      call_jiminy_tool r =
        .str ("Error: " ++ pyStr ((r.get "error").getD (.str "Unknown error")))) ∧
    (r.get "status" = some (.str "IN_QUEUE") →
      call_jiminy_tool r = .str "Error: Job in queue - try again later") ∧
    (r.get "status" = some (.str "IN_PROGRESS") →
      call_jiminy_tool r = .str "Error: Job in progress - try again later") ∧
    ((∀ s, r.get "status" = some (.str s) →
        s ≠ "FAILED" ∧ s ≠ "IN_QUEUE" ∧ s ≠ "IN_PROGRESS") →
      (∀ v, ((r.get "output").getD (.obj [])).get "result" = some v →
        call_jiminy_tool r = v) ∧
      (((r.get "output").getD (.obj [])).get "result" = none →
        (∀ e, ((r.get "output").getD (.obj [])).get "error" = some e →
          call_jiminy_tool r = .str ("Error: " ++ pyStr e)) ∧
        (((r.get "output").getD (.obj [])).get "error" = none →
          call_jiminy_tool r = .str (pyStr ((r.get "output").getD (.obj [])))))) := by
  refine ⟨?_, ?_, ?_, ?_⟩
  · intro h
    unfold call_jiminy_tool
    rw [h]
    rfl
  · intro h
    unfold call_jiminy_tool
    rw [h]
    rfl
  · intro h
    unfold call_jiminy_tool
    rw [h]
    rfl
  · intro hother
    have hfall : call_jiminy_tool r =
        call_jiminy_tool.interpretOutput ((r.get "output").getD (.obj [])) := by
      rcases hst : r.get "status" with _ | j
      · unfold call_jiminy_tool
        rw [hst]
      · cases j with
        | str s =>
          obtain ⟨h1, h2, h3⟩ := hother s hst
          simp only [call_jiminy_tool, hst]
          rw [if_neg h1, if_neg h2, if_neg h3]
        | null => unfold call_jiminy_tool; rw [hst]
        | bool b => unfold call_jiminy_tool; rw [hst]
        | num n => unfold call_jiminy_tool; rw [hst]
        | arr elems => unfold call_jiminy_tool; rw [hst]
        | obj fields => unfold call_jiminy_tool; rw [hst]
    refine ⟨?_, ?_⟩
    · intro v hv
      rw [hfall]
      unfold call_jiminy_tool.interpretOutput
      rw [hv]
    · intro hnone
      refine ⟨?_, ?_⟩
      · intro e2 he
        rw [hfall]
        unfold call_jiminy_tool.interpretOutput
        rw [hnone, he]
      · intro herr
        rw [hfall]
        unfold call_jiminy_tool.interpretOutput
        rw [hnone, herr]

/-- C6 witness: the branches evaluated on concrete endpoint replies. -/
theorem C6_witness :
    call_jiminy_tool (.obj [("status", .str "FAILED"), ("error", .str "boom")]) =
      .str "Error: boom" ∧
    call_jiminy_tool (.obj [("status", .str "IN_QUEUE")]) =
      .str "Error: Job in queue - try again later" ∧
    call_jiminy_tool (.obj [("status", .str "COMPLETED"),
        ("output", .obj [("result", .str "payload"), ("error", .str "ignored")])]) =
      .str "payload" ∧
    call_jiminy_tool (.obj [("status", .str "COMPLETED"),
        ("output", .obj [("error", .str "oops")])]) = .str "Error: oops" := by
  have hother3 : ∀ s,
      (Json.obj [("status", .str "COMPLETED"),
        ("output", .obj [("result", .str "payload"), ("error", .str "ignored")])]).get
        "status" = some (.str s) →
      s ≠ "FAILED" ∧ s ≠ "IN_QUEUE" ∧ s ≠ "IN_PROGRESS" := by
    intro s hs
    have h1 : "COMPLETED" = s := Json.str.inj (Option.some.inj hs)
    subst h1
    exact ⟨by decide, by decide, by decide⟩
  have hother4 : ∀ s,
      (Json.obj [("status", .str "COMPLETED"),
        ("output", .obj [("error", .str "oops")])]).get "status" = some (.str s) →
      s ≠ "FAILED" ∧ s ≠ "IN_QUEUE" ∧ s ≠ "IN_PROGRESS" := by
    intro s hs
    have h1 : "COMPLETED" = s := Json.str.inj (Option.some.inj hs)
    subst h1
    exact ⟨by decide, by decide, by decide⟩
  refine ⟨(C6_endpoint_interpretation _).1 rfl, (C6_endpoint_interpretation _).2.1 rfl,
    ((C6_endpoint_interpretation _).2.2.2 hother3).1 (.str "payload") rfl, ?_⟩
  exact (((C6_endpoint_interpretation _).2.2.2 hother4).2 rfl).1 (.str "oops") rfl

/-- C7: in every final transcript of the Local-mode run, each results turn
sits immediately after an assistant turn whose tool-use ids it echoes in
order (tools resolved one at a time, order preserved), and when those ids
are distinct — as the protocol guarantees — every appended ToolResult
matches exactly one ToolUse of that assistant turn. -/
theorem C7_results_correlate (infFn : InfFn) (toolFn : ToolFn) (N : Nat) (q : String) :
    resultsTurnsMatched (run_jiminy_agent infFn toolFn N q).transcript ∧
    (∀ i role rs bs,
      (run_jiminy_agent infFn toolFn N q).transcript.get? (i + 1) =
        some ⟨role, .results rs⟩ →
      (run_jiminy_agent infFn toolFn N q).transcript.get? i =
        some ⟨"assistant", .blocks bs⟩ →
      (toolUseIds bs).Nodup →
      ∀ r ∈ rs, (toolUseIds bs).count r.tool_use_id = 1) := by
  have hm : resultsTurnsMatched (run_jiminy_agent infFn toolFn N q).transcript :=
    jiminyLoop_matched infFn toolFn N [⟨"user", .text q⟩] 0 (resultsTurnsMatched_seed q)
  refine ⟨hm, ?_⟩
  intro i role rs bs h1 h2 hnd r hr
  obtain ⟨bs2, hbs2, hmap⟩ := hm.2 i role rs h1
  rw [h2] at hbs2
  have hbs : bs = bs2 :=
    MsgContent.blocks.inj (Message.mk.inj (Option.some.inj hbs2)).2
  rw [← hbs] at hmap
  have hmem : r.tool_use_id ∈ toolUseIds bs := by
    rw [← hmap]
    exact List.mem_map_of_mem _ hr
  exact List.count_eq_one_of_mem hnd hmem

/-- C7 witness: in the concrete scripted run, the single appended result
matches exactly one tool use of the prior assistant turn. -/
theorem C7_witness :
    (toolUseIds [ContentBlock.toolUse "t1" "search_papers" (.obj [])]).count "t1" = 1 :=
  (C7_results_correlate c2Inf wTool 20 "Q").2 1 "user"
    [⟨"t1", "ok", false⟩] [ContentBlock.toolUse "t1" "search_papers" (.obj [])]
    rfl rfl (by decide) ⟨"t1", "ok", false⟩ (by decide)

/-- C8: the transcript is append-only — the run's final transcript extends
the starting one, so its length never decreases and existing entries are
never removed or mutated — and an iteration whose response contains a tool
use appends exactly two messages: the assistant turn, then one user turn
(a single grouped results turn in Local mode, the fixed continuation
instruction in Delegated mode). -/
theorem C8_append_only (infFn : InfFn) (toolFn : ToolFn) (pubInf : InfFn)
    (fuel : Nat) (msgs : List Message) (calls : Nat) :
    (∃ t, (jiminyLoop infFn toolFn fuel msgs calls).transcript = msgs ++ t) ∧
    msgs.length ≤ (jiminyLoop infFn toolFn fuel msgs calls).transcript.length ∧
    (hasToolUse (infFn msgs).content = true →
      jiminyLoop infFn toolFn (fuel + 1) msgs calls =
        jiminyLoop infFn toolFn fuel
          (msgs ++ [⟨"assistant", .blocks (infFn msgs).content⟩,
                    ⟨"user", .results (toolResultsFor toolFn (infFn msgs).content)⟩])
          (calls + 1)) ∧
    (∃ t, (pubmedLoop pubInf fuel msgs calls).transcript = msgs ++ t) ∧
    msgs.length ≤ (pubmedLoop pubInf fuel msgs calls).transcript.length ∧
    (hasMcpToolUse (pubInf msgs).content = true →
      pubmedLoop pubInf (fuel + 1) msgs calls =
        pubmedLoop pubInf fuel
          (msgs ++ [⟨"assistant", .blocks (pubInf msgs).content⟩,
                    ⟨"user", .text continueInstruction⟩]) (calls + 1)) := by
  obtain ⟨t1, ht1⟩ := jiminyLoop_extends infFn toolFn fuel msgs calls
  obtain ⟨t2, ht2⟩ := pubmedLoop_extends pubInf fuel msgs calls
  exact ⟨⟨t1, ht1⟩, by rw [ht1]; simp,
    jiminyLoop_succ_tool infFn toolFn fuel msgs calls,
    ⟨t2, ht2⟩, by rw [ht2]; simp,
    pubmedLoop_succ_tool pubInf fuel msgs calls⟩

/-- C8 witness: one tool-using iteration appends exactly the assistant turn
and one user turn, at concrete stubs, in both variants. -/
theorem C8_witness :
    jiminyLoop wToolInf wTool 1 [⟨"user", .text "Q"⟩] 0 =
      jiminyLoop wToolInf wTool 0
        ([⟨"user", .text "Q"⟩] ++
          [⟨"assistant", .blocks (wToolInf [⟨"user", .text "Q"⟩]).content⟩,
           ⟨"user", .results (toolResultsFor wTool (wToolInf [⟨"user", .text "Q"⟩]).content)⟩])
        1 ∧
    pubmedLoop wPubToolInf 1 [⟨"user", .text "Q"⟩] 0 =
      pubmedLoop wPubToolInf 0
        ([⟨"user", .text "Q"⟩] ++
          [⟨"assistant", .blocks (wPubToolInf [⟨"user", .text "Q"⟩]).content⟩,
           ⟨"user", .text continueInstruction⟩]) 1 :=
  ⟨(C8_append_only wToolInf wTool wPubToolInf 0 [⟨"user", .text "Q"⟩] 0).2.2.1 rfl,
   (C8_append_only wToolInf wTool wPubToolInf 0 [⟨"user", .text "Q"⟩] 0).2.2.2.2.2 rfl⟩

/-- C9: the loops are deterministic functions of the inference function,
the tool function and the question, so two runs with the same question
produce identical run results — identical final transcripts and identical
final answers — in both variants. -/
theorem C9_runs_identical (infFn : InfFn) (toolFn : ToolFn) (pubInf : InfFn) (N : Nat)
    (q1 q2 : String) (h : q1 = q2) :
    run_jiminy_agent infFn toolFn N q1 = run_jiminy_agent infFn toolFn N q2 ∧
    (run_jiminy_agent infFn toolFn N q1).transcript =
      (run_jiminy_agent infFn toolFn N q2).transcript ∧
    (run_jiminy_agent infFn toolFn N q1).answer =
      (run_jiminy_agent infFn toolFn N q2).answer ∧
    run_pubmed_agent pubInf N q1 = run_pubmed_agent pubInf N q2 := by
  subst h
  exact ⟨rfl, rfl, rfl, rfl⟩

/-- C9 witness: two runs on the same concrete question coincide. -/
theorem C9_witness :
    run_jiminy_agent wDoneInf wTool 2 "Q" = run_jiminy_agent wDoneInf wTool 2 "Q" ∧
    run_pubmed_agent wPubToolInf 2 "Q" = run_pubmed_agent wPubToolInf 2 "Q" :=
  ⟨(C9_runs_identical wDoneInf wTool wPubToolInf 2 "Q" "Q" rfl).1,
   (C9_runs_identical wDoneInf wTool wPubToolInf 2 "Q" "Q" rfl).2.2.2⟩

/-- C10: over every response block list and every tool function — including
ones that raise on some invocations — the built result list pairs the
tool-use blocks one for one: the ids line up in order and the counts are
equal, so an exception in one invocation never suppresses the remaining
ones. -/
theorem C10_result_per_toolUse (toolFn : ToolFn) (c : List ContentBlock) :
    (toolResultsFor toolFn c).map (fun r => r.tool_use_id) = toolUseIds c ∧
    (toolResultsFor toolFn c).length = (toolUseIds c).length := by
  refine ⟨toolResultsFor_map_ids toolFn c, ?_⟩
  have := congrArg List.length (toolResultsFor_map_ids toolFn c)
  simpa using this

end PubmedMcp
